import Mathlib

set_option maxRecDepth 10000

/-!
Verification of the DeafAI text-degradation engine (src/deaf-simulator.ts).

Shallow embedding conventions:
* JS numbers are modelled as rationals (`ℚ`); `Math.floor`, `Math.ceil`
  and `Math.round` become `⌊·⌋`, `⌈·⌉` and `⌊· + 1/2⌋` on `ℚ`.
* The ambient `Math.random()` source is an explicit tape
  `Nat → ℚ` of draws in `[0,1)`, threaded by an index.
* Strings are lists of characters; the entries of the mutable `chars`
  array of `garbleWord` are themselves character lists, because a
  confusion-table replacement may store a multi-character string in
  one array slot.
* The `language` field is a raw string, as at the JS runtime (the
  TypeScript union type is erased); `getSimilarCharsMap` has the
  source's `default:` fallthrough to the agnostic table.
-/

namespace DeafAI

/-- Tape of pseudo-random draws: entry `n` is the `n`-th value produced by
`Math.random()`. -/
abbrev Tape := Nat → ℚ

/-- Values produced by `Math.random()` lie in `[0,1)`. -/
def ValidTape (tape : Tape) : Prop := ∀ n, 0 ≤ tape n ∧ tape n < 1

/-- JS `\s` (restricted to the ASCII whitespace characters, which are the
only ones the claims exercise). -/
def isWs (c : Char) : Bool :=
  c = ' ' || c = '\t' || c = '\n' || c = '\r' || c = '\x0b' || c = '\x0c'

/-- JS `String.prototype.toLowerCase` on one character, for the character
range used by the engine (ASCII letters plus the accented letter of
"perché"). -/
def jsLowerChar (c : Char) : Char :=
  if 'A' ≤ c ∧ c ≤ 'Z' then Char.ofNat (c.toNat + 32)
  else if c = 'É' then 'é' else c

/-- JS `String.prototype.toUpperCase` on one character (same range). -/
def jsUpperChar (c : Char) : Char :=
  if 'a' ≤ c ∧ c ≤ 'z' then Char.ofNat (c.toNat - 32)
  else if c = 'é' then 'É' else c

/-- Worker for `jsSplitWs`.  `inSep` records whether we are inside a run of
whitespace (a separator match of `/\s+/`). -/
def jsSplitWsGo : List Char → List Char → Bool → List (List Char)
  | [], acc, inSep => if inSep then [[]] else [acc.reverse]
  | c :: cs, acc, inSep =>
    if isWs c then
      if inSep then jsSplitWsGo cs [] true
      else acc.reverse :: jsSplitWsGo cs [] true
    else jsSplitWsGo cs (c :: acc) false

/-- JS `s.split(/\s+/)`: splits on maximal whitespace runs; a leading or
trailing run contributes an empty token, and `"".split(/\s+/) = [""]`. -/
def jsSplitWs (s : List Char) : List (List Char) :=
  jsSplitWsGo s [] false

/-- Worker for `jsCollapseWs`. -/
def jsCollapseWsGo : List Char → Bool → List Char
  | [], _ => []
  | c :: cs, inWs =>
    if isWs c then
      if inWs then jsCollapseWsGo cs true else ' ' :: jsCollapseWsGo cs true
    else c :: jsCollapseWsGo cs false

/-- JS `s.replace(/\s+/g, ' ')`: every maximal whitespace run becomes one
space. -/
def jsCollapseWs (s : List Char) : List Char := jsCollapseWsGo s false

/-- Drop leading whitespace. -/
def dropLeadingWs : List Char → List Char
  | [] => []
  | c :: cs => if isWs c then dropLeadingWs cs else c :: cs

/-- JS `s.trim()`. -/
def jsTrim (s : List Char) : List Char :=
  (dropLeadingWs (dropLeadingWs s).reverse).reverse

/-- JS `Math.floor` on a rational, in the executable form `num / den`
(Euclidean division by the positive denominator); equal to `⌊q⌋`
(`jsFloor_eq_floor` below). -/
def jsFloor (q : ℚ) : Int := q.num / (q.den : Int)

/-- JS `Math.ceil`; equal to `⌈q⌉` (`jsCeil_eq_ceil` below). -/
def jsCeil (q : ℚ) : Int := -jsFloor (-q)

/-- JS `Math.round` (round half towards positive infinity). -/
def jsRound (q : ℚ) : Int := jsFloor (q + 1/2)

/-- The engine state: `level` and `language`, both immutable
(deaf-simulator.ts lines 21-28). -/
structure DeafSimulator where
  level : Int
  language : String
deriving DecidableEq

/-- The constructor: `this.level = Math.max(1, Math.min(10, config.level))`;
the language is stored as given - the source performs no runtime language
validation and never throws. -/
def DeafSimulator.create (level : Int) (language : String) : DeafSimulator :=
  { level := max 1 (min 10 level), language := language }

/-- The `recognitionRates` table of `decideAction`, including the `|| 70`
fallback for levels outside the table. -/
def recognitionRates (level : Int) : ℚ :=
  if level = 1 then 97 else if level = 2 then 92 else if level = 3 then 85
  else if level = 4 then 78 else if level = 5 then 70 else if level = 6 then 60
  else if level = 7 then 45 else if level = 8 then 30 else if level = 9 then 18
  else if level = 10 then 8 else 70

/-- Does `p` occur at the start of `w`? (models the anchored regex tests). -/
def startsWithL (p w : List Char) : Bool := w.take p.length == p

/-- The alternatives of the interrogative-word regex
`/^(what|who|why|when|where|how|cosa|chi|perché|quando|dove|come)/i`.
Note the source uses this single combined list for every language mode. -/
def interrogatives : List (List Char) :=
  ["what".data, "who".data, "why".data, "when".data, "where".data, "how".data,
   "cosa".data, "chi".data, "perché".data, "quando".data, "dove".data, "come".data]

/-- `word.length > 5 || /^[A-Z]/.test(word) || /^(what|...)/i.test(word)`. -/
def isImportant (w : List Char) : Bool :=
  decide (5 < w.length) ||
  (match w with
   | [] => false
   | c :: _ => decide ('A' ≤ c ∧ c ≤ 'Z')) ||
  interrogatives.any (fun q => startsWithL q (w.map jsLowerChar))

/-- `importanceBonus = isImportant ? 5 : 0`. -/
def importanceBonus (w : List Char) : ℚ :=
  if isImportant w then 5 else 0

/-- `keepThreshold = Math.min(98, keepRate + importanceBonus)`. -/
def keepThreshold (level : Int) (w : List Char) : ℚ :=
  min 98 (recognitionRates level + importanceBonus w)

/-- `garbleRate = level <= 2 ? 2 : (level >= 9 ? 5 : 15)`. -/
def garbleRate (level : Int) : ℚ :=
  if level ≤ 2 then 2 else if 9 ≤ level then 5 else 15

/-- `partialRate = level <= 2 ? 1 : (level >= 9 ? 3 : 10)`. -/
def partialRate (level : Int) : ℚ :=
  if level ≤ 2 then 1 else if 9 ≤ level then 3 else 10

/-- The four outcomes of `decideAction`. -/
inductive Action where
  | keep
  | garble
  | partialHeard
  | drop
deriving DecidableEq

/-- `decideAction` (deaf-simulator.ts lines 89-131); `t` is the draw of
`Math.random()`, so `roll = t * 100`. -/
def decideAction (sim : DeafSimulator) (t : ℚ) (w : List Char) : Action :=
  let roll := t * 100
  if roll < keepThreshold sim.level w then .keep
  else if roll < keepThreshold sim.level w + garbleRate sim.level then .garble
  else if roll < keepThreshold sim.level w + garbleRate sim.level +
      partialRate sim.level then .partialHeard
  else .drop

/-- The language-agnostic confusion table. -/
def agnosticMap : List (List Char × List (List Char)) :=
  [("a".data, ["e".data, "o".data]), ("e".data, ["i".data, "a".data]),
   ("i".data, ["e".data, "y".data]), ("o".data, ["u".data, "a".data]),
   ("u".data, ["o".data, "a".data]), ("b".data, ["p".data, "d".data]),
   ("c".data, ["k".data, "s".data]), ("d".data, ["t".data, "b".data]),
   ("f".data, ["v".data, "s".data]), ("g".data, ["k".data, "j".data]),
   ("h".data, ["".data, "f".data]), ("j".data, ["g".data, "y".data]),
   ("k".data, ["c".data, "g".data]), ("l".data, ["r".data, "n".data]),
   ("m".data, ["n".data, "b".data]), ("n".data, ["m".data, "l".data]),
   ("p".data, ["b".data, "t".data]), ("q".data, ["k".data, "g".data]),
   ("r".data, ["l".data, "w".data]), ("s".data, ["z".data, "c".data]),
   ("t".data, ["d".data, "p".data]), ("v".data, ["f".data, "b".data]),
   ("w".data, ["v".data, "u".data]), ("x".data, ["s".data, "z".data]),
   ("y".data, ["i".data, "j".data]), ("z".data, ["s".data, "j".data])]

/-- The English confusion table. -/
def englishMap : List (List Char × List (List Char)) :=
  [("a".data, ["e".data, "u".data, "o".data]),
   ("e".data, ["i".data, "a".data, "u".data]),
   ("i".data, ["e".data, "y".data, "u".data]),
   ("o".data, ["u".data, "a".data, "oo".data]),
   ("u".data, ["o".data, "a".data, "oo".data]),
   ("b".data, ["p".data, "d".data, "v".data]),
   ("c".data, ["k".data, "s".data, "g".data]),
   ("d".data, ["t".data, "b".data, "g".data]),
   ("f".data, ["v".data, "th".data, "s".data]),
   ("g".data, ["k".data, "j".data, "d".data]),
   ("h".data, ["".data, "f".data, "ch".data]),
   ("j".data, ["g".data, "ch".data, "y".data]),
   ("k".data, ["c".data, "g".data, "q".data]),
   ("l".data, ["r".data, "w".data, "n".data]),
   ("m".data, ["n".data, "b".data, "w".data]),
   ("n".data, ["m".data, "ng".data, "l".data]),
   ("p".data, ["b".data, "t".data, "f".data]),
   ("q".data, ["k".data, "g".data, "c".data]),
   ("r".data, ["l".data, "w".data, "y".data]),
   ("s".data, ["z".data, "sh".data, "th".data]),
   ("t".data, ["d".data, "th".data, "p".data]),
   ("v".data, ["f".data, "b".data, "w".data]),
   ("w".data, ["v".data, "r".data, "u".data]),
   ("x".data, ["s".data, "z".data, "ks".data]),
   ("y".data, ["i".data, "j".data, "e".data]),
   ("z".data, ["s".data, "th".data, "j".data])]

/-- The Italian confusion table, including the double-consonant and digraph
entries keyed by two-character clusters. -/
def italianMap : List (List Char × List (List Char)) :=
  [("a".data, ["e".data, "o".data]), ("e".data, ["i".data, "a".data]),
   ("i".data, ["e".data, "u".data]), ("o".data, ["u".data, "a".data]),
   ("u".data, ["o".data, "i".data]), ("b".data, ["p".data, "v".data]),
   ("c".data, ["g".data, "ch".data, "k".data]),
   ("d".data, ["t".data, "b".data]), ("f".data, ["v".data, "s".data]),
   ("g".data, ["c".data, "gh".data, "j".data]),
   ("h".data, ["".data]),
   ("l".data, ["r".data, "gl".data]), ("m".data, ["n".data, "mm".data]),
   ("n".data, ["m".data, "gn".data, "nn".data]),
   ("p".data, ["b".data, "pp".data]), ("q".data, ["c".data, "k".data]),
   ("r".data, ["l".data, "rr".data]),
   ("s".data, ["z".data, "ss".data, "sc".data]),
   ("t".data, ["d".data, "tt".data]), ("v".data, ["f".data, "b".data]),
   ("z".data, ["s".data, "zz".data, "ts".data]),
   ("cc".data, ["c".data, "gg".data]), ("gg".data, ["g".data, "cc".data]),
   ("ss".data, ["s".data, "zz".data]), ("zz".data, ["z".data, "ss".data]),
   ("tt".data, ["t".data, "dd".data]), ("dd".data, ["d".data, "tt".data]),
   ("pp".data, ["p".data, "bb".data]), ("bb".data, ["b".data, "pp".data]),
   ("rr".data, ["r".data, "ll".data]), ("ll".data, ["l".data, "rr".data]),
   ("mm".data, ["m".data, "nn".data]), ("nn".data, ["n".data, "mm".data]),
   ("gl".data, ["l".data, "gli".data]), ("gn".data, ["n".data, "gni".data]),
   ("sc".data, ["s".data, "c".data]), ("ch".data, ["c".data, "k".data]),
   ("gh".data, ["g".data, "c".data])]

/-- `getSimilarCharsMap`: `switch` on the language with the agnostic table
as the `default:` branch. -/
def getSimilarCharsMap (sim : DeafSimulator) : List (List Char × List (List Char)) :=
  if sim.language = "en" then englishMap
  else if sim.language = "it" then italianMap
  else agnosticMap

/-- First-match lookup in an association list (models JS object indexing on
the literal confusion-table objects, whose keys are distinct). -/
def lookupMap (m : List (List Char × List (List Char))) (k : List Char) :
    Option (List (List Char)) :=
  match m with
  | [] => none
  | (k', v) :: rest => if k = k' then some v else lookupMap rest k

/-- Result of one `getSimilarChar` call: the produced slot, the next tape
index, and - for the verification of the table-consultation claim - the
`(lower-cased key, chosen table entry)` pair when a substitution from the
table was actually applied. -/
structure SimilarOut where
  result : List Char
  idx : Nat
  hit : Option (List Char × List Char)
deriving DecidableEq

/-- `getSimilarChar` (deaf-simulator.ts lines 182-194).  Note that a falsy
replacement (the empty string, or an out-of-range index) returns the
character unchanged, and that the random index is drawn only when a
non-empty replacement list was found. -/
def getSimilarCharR (sim : DeafSimulator) (tape : Tape) (i : Nat)
    (ch : List Char) : SimilarOut :=
  let lower := ch.map jsLowerChar
  match lookupMap (getSimilarCharsMap sim) lower with
  | none => ⟨ch, i, none⟩
  | some repls =>
    if repls.length = 0 then ⟨ch, i, none⟩
    else
      let idx : Int := jsFloor (tape i * (repls.length : ℚ))
      let replacement : List Char :=
        if idx < 0 then [] else repls.getD idx.toNat []
      if replacement = [] then ⟨ch, i + 1, none⟩
      else if ch = ch.map jsUpperChar then
        ⟨replacement.map jsUpperChar, i + 1, some (lower, replacement)⟩
      else ⟨replacement, i + 1, some (lower, replacement)⟩

/-- State after running (part of) the garble edit loop. -/
structure GarbleOut where
  chars : List (List Char)
  idx : Nat
  edits : Nat
  trace : List (List Char × List Char)
deriving DecidableEq

/-- The edit loop of `garbleWord` (deaf-simulator.ts lines 139-163): each
iteration draws a position and an operation selector; `edits` counts the
iterations that ran an edit (the source's `continue` on an undefined
position is the final `else`; the `break` on an emptied array is the
`chars.length = 0` test). -/
def garbleLoop (sim : DeafSimulator) (tape : Tape) :
    Nat → List (List Char) → Nat → GarbleOut
  | 0, chars, i => ⟨chars, i, 0, []⟩
  | n + 1, chars, i =>
    if chars.length = 0 then ⟨chars, i, 0, []⟩
    else
      let pos : Int := jsFloor (tape i * (chars.length : ℚ))
      let act : ℚ := tape (i + 1)
      if 0 ≤ pos ∧ pos.toNat < chars.length then
        let cur := chars.getD pos.toNat []
        if act < 4/10 then
          let g := getSimilarCharR sim tape (i + 2) cur
          let rest := garbleLoop sim tape n (chars.set pos.toNat g.result) g.idx
          ⟨rest.chars, rest.idx, rest.edits + 1,
            match g.hit with
            | none => rest.trace
            | some p => p :: rest.trace⟩
        else if act < 7/10 then
          let chars' :=
            if pos.toNat + 1 < chars.length then
              (chars.set pos.toNat (chars.getD (pos.toNat + 1) [])).set
                (pos.toNat + 1) cur
            else chars
          let rest := garbleLoop sim tape n chars' (i + 2)
          ⟨rest.chars, rest.idx, rest.edits + 1, rest.trace⟩
        else
          let rest := garbleLoop sim tape n (chars.eraseIdx pos.toNat) (i + 2)
          ⟨rest.chars, rest.idx, rest.edits + 1, rest.trace⟩
      else
        let rest := garbleLoop sim tape n chars (i + 2)
        ⟨rest.chars, rest.idx, rest.edits, rest.trace⟩

/-- `numChanges = Math.ceil(word.length * (this.level / 20))`. -/
def numChanges (level : Int) (len : Nat) : Nat :=
  (jsCeil ((len : ℚ) * ((level : ℚ) / 20))).toNat

/-- The full garble run on a word of length > 2: `word.split('')` then the
edit loop. -/
def garbleRun (sim : DeafSimulator) (tape : Tape) (i : Nat)
    (w : List Char) : GarbleOut :=
  garbleLoop sim tape (numChanges sim.level w.length) (w.map (fun c => [c])) i

/-- `garbleWord` (deaf-simulator.ts lines 133-166): words of length ≤ 2 are
returned unchanged; otherwise the edit loop runs and the slots are joined. -/
def garbleWord (sim : DeafSimulator) (tape : Tape) (i : Nat)
    (w : List Char) : List Char × Nat :=
  if w.length ≤ 2 then (w, i)
  else
    let r := garbleRun sim tape i w
    (r.chars.flatten, r.idx)

/-- The ellipsis marker `'...'`. -/
def ellipsisMark : List Char := ['.', '.', '.']

/-- The string JS produces for `word[0] + '...'` when `word` is empty:
`undefined` coerced to a string. -/
def undefinedLit : List Char := "undefined".data

/-- `partialWord` (deaf-simulator.ts lines 168-180).  For words of length
≤ 3 the source evaluates `word[0] + '...'`, which on the empty word
concatenates the string form of `undefined`. -/
def partialWord (sim : DeafSimulator) (tape : Tape) (i : Nat)
    (w : List Char) : List Char × Nat :=
  if w.length ≤ 3 then
    ((if w.length = 0 then undefinedLit else w.take 1) ++ ellipsisMark, i)
  else
    let keepFrac : ℚ := 1 - (sim.level : ℚ) / 15
    let keepLength : Int := max 1 (jsFloor ((w.length : ℚ) * keepFrac))
    if tape i < 6/10 then
      (w.take keepLength.toNat ++ ellipsisMark, i + 1)
    else
      (ellipsisMark ++ w.drop (w.length - keepLength.toNat), i + 1)

/-- The literal placeholder `'[...]'`. -/
def placeholderTok : List Char := ['[', '.', '.', '.', ']']

/-- The per-word loop of `simulate` (deaf-simulator.ts lines 38-59),
returning the pushed degraded words and the final tape index.  A drop draws
the placeholder coin only when `level >= 7` (JS short-circuit `&&`). -/
def simulateLoop (sim : DeafSimulator) (tape : Tape) :
    List (List Char) → Nat → List (List Char) × Nat
  | [], i => ([], i)
  | w :: ws, i =>
    match decideAction sim (tape i) w with
    | .keep =>
        let r := simulateLoop sim tape ws (i + 1)
        (w :: r.1, r.2)
    | .garble =>
        let g := garbleWord sim tape (i + 1) w
        let r := simulateLoop sim tape ws g.2
        (g.1 :: r.1, r.2)
    | .partialHeard =>
        let p := partialWord sim tape (i + 1) w
        let r := simulateLoop sim tape ws p.2
        (p.1 :: r.1, r.2)
    | .drop =>
        if 7 ≤ sim.level then
          if tape (i + 1) < 3/10 then
            let r := simulateLoop sim tape ws (i + 2)
            (placeholderTok :: r.1, r.2)
          else simulateLoop sim tape ws (i + 2)
        else simulateLoop sim tape ws (i + 1)

/-- The result record of `simulate`. -/
structure DegradationResult where
  original : String
  degraded : String
  lossPercentage : Int
deriving DecidableEq

/-- Result assembly (deaf-simulator.ts lines 61-70): join with spaces,
collapse whitespace, trim; the loss percentage counts the non-placeholder
tokens of the degraded string against the input token count, is rounded,
and floored at 0. -/
def assembleResult (input : String) (n : Nat) (dws : List (List Char)) :
    DegradationResult :=
  let degraded := jsTrim (jsCollapseWs (List.intercalate [' '] dws))
  let kept := ((jsSplitWs degraded).filter (fun w => w != placeholderTok)).length
  let loss : Int :=
    if 0 < n then jsRound ((1 - (kept : ℚ) / (n : ℚ)) * 100) else 0
  { original := input, degraded := ⟨degraded⟩, lossPercentage := max 0 loss }

/-- `simulate` (deaf-simulator.ts lines 33-71): split the input on
whitespace, run the per-word loop from tape index 0, assemble. -/
def simulate (sim : DeafSimulator) (tape : Tape) (input : String) :
    DegradationResult :=
  assembleResult input (jsSplitWs input.data).length
    (simulateLoop sim tape (jsSplitWs input.data) 0).1

/-- Does the character `c` occur doubled (two adjacent occurrences) in the
word?  Used to state the doubled-consonant-cluster claim. -/
def hasDoubled (c : Char) : List Char → Bool
  | [] => false
  | [_] => false
  | a :: b :: rest => (a = c && b = c) || hasDoubled c (b :: rest)

/-- Claim-side: the base keep-rate table of the spec,
`{1:97, 2:92, 3:85, 4:78, 5:70, 6:60, 7:45, 8:30, 9:18, 10:8}`. -/
def specBaseKeepRate (level : Int) : ℚ :=
  if level = 1 then 97 else if level = 2 then 92 else if level = 3 then 85
  else if level = 4 then 78 else if level = 5 then 70 else if level = 6 then 60
  else if level = 7 then 45 else if level = 8 then 30 else if level = 9 then 18
  else if level = 10 then 8 else 0

/-- Claim-side (C6): the English interrogative set of the spec. -/
def specInterrogativesEn : List (List Char) :=
  ["what".data, "who".data, "why".data, "when".data, "where".data, "how".data]

/-- Claim-side (C6): the Italian interrogative set of the spec. -/
def specInterrogativesIt : List (List Char) :=
  ["cosa".data, "chi".data, "perché".data, "quando".data, "dove".data, "come".data]

/-- Claim-side (C6): the importance bonus as the spec describes it, with the
interrogative set selected by the active language. -/
def importanceBonusSpec (language : String) (w : List Char) : ℚ :=
  let qs :=
    if language = "en" then specInterrogativesEn
    else if language = "it" then specInterrogativesIt
    else specInterrogativesEn ++ specInterrogativesIt
  if decide (5 < w.length) ||
     (match w with
      | [] => false
      | c :: _ => decide ('A' ≤ c ∧ c ≤ 'Z')) ||
     qs.any (fun q => startsWithL q (w.map jsLowerChar)) then 5 else 0



/-- Total number of characters across the slots of the garble working
array (the length of the joined string). -/
def joinedLen (chars : List (List Char)) : Nat := (chars.map List.length).sum

/-! ## Bridging and helper lemmas -/

theorem jsFloor_eq_floor (q : ℚ) : jsFloor q = ⌊q⌋ := Rat.floor_def.symm

theorem jsCeil_eq_ceil (q : ℚ) : jsCeil q = ⌈q⌉ := by
  unfold jsCeil
  rw [jsFloor_eq_floor, Int.floor_neg, neg_neg]

theorem recognitionRates_pos (l : Int) : 0 < recognitionRates l := by
  unfold recognitionRates
  repeat' split
  all_goals norm_num

theorem recognitionRates_eq_spec (l : Int) (h1 : 1 ≤ l) (h2 : l ≤ 10) :
    recognitionRates l = specBaseKeepRate l := by
  interval_cases l <;> rfl

/-! ## C1 -/

/-- C1: for every token and every configured level in [1,10], the action
selector compares the roll `t * 100 ∈ [0,100)` against the cumulative
thresholds of the spec: keep below `min(98, baseKeepRate[level] +
importanceBonus)`; garble below that plus garbleRate (2 if level ≤ 2, 5 if
level ≥ 9, else 15); partial below that plus partialRate (1 if level ≤ 2, 3
if level ≥ 9, else 10); otherwise drop. -/
theorem decideAction_cumulative_thresholds (sim : DeafSimulator) (t : ℚ)
    (w : List Char) (h1 : 1 ≤ sim.level) (h2 : sim.level ≤ 10) :
    decideAction sim t w =
      if t * 100 < min 98 (specBaseKeepRate sim.level + importanceBonus w) then
        .keep
      else if t * 100 < min 98 (specBaseKeepRate sim.level + importanceBonus w) +
          (if sim.level ≤ 2 then 2 else if 9 ≤ sim.level then 5 else 15) then
        .garble
      else if t * 100 < min 98 (specBaseKeepRate sim.level + importanceBonus w) +
          (if sim.level ≤ 2 then 2 else if 9 ≤ sim.level then 5 else 15) +
          (if sim.level ≤ 2 then 1 else if 9 ≤ sim.level then 3 else 10) then
        .partialHeard
      else .drop := by
  unfold decideAction keepThreshold garbleRate partialRate
  rw [recognitionRates_eq_spec sim.level h1 h2]

/-- Witness for C1: level 5, token "hello", roll 0 is kept. -/
theorem decideAction_cumulative_thresholds_witness :
    decideAction (DeafSimulator.create 5 "en") 0 ("hello".data) = Action.keep := by
  rw [decideAction_cumulative_thresholds (DeafSimulator.create 5 "en") 0
    ("hello".data) (by decide) (by decide)]
  with_unfolding_all rfl

/-! ## C4 -/

/-- C4 counterexample: constructing the engine with the unrecognized
language "xx" does not fail - the claim says this construction errors with
InvalidConfiguration, but the source constructor stores the language
unvalidated and every later table selection falls through to the agnostic
table. -/
theorem create_unrecognized_language_cex :
    DeafSimulator.create 5 "xx" = { level := 5, language := "xx" } ∧
    getSimilarCharsMap (DeafSimulator.create 5 "xx") = agnosticMap :=
  of_decide_eq_true (by with_unfolding_all rfl)

/-- C4 amended: construction clamps every raw integer level into [1,10]
(below 1 becomes 1, above 10 becomes 10, in-range values are preserved)
without raising an error; no language validation or InvalidConfiguration
error exists - an unrecognized language is accepted and the
confusion-table selection falls back to the agnostic table. -/
theorem create_clamps_level (level : Int) (language : String) :
    ((level < 1 → (DeafSimulator.create level language).level = 1) ∧
     (10 < level → (DeafSimulator.create level language).level = 10) ∧
     (1 ≤ level → level ≤ 10 → (DeafSimulator.create level language).level = level)) ∧
    (language ≠ "en" → language ≠ "it" →
      getSimilarCharsMap (DeafSimulator.create level language) = agnosticMap) := by
  refine ⟨⟨fun h => ?_, fun h => ?_, fun h h2 => ?_⟩, fun h1 h2 => ?_⟩
  · show max 1 (min 10 level) = 1
    omega
  · show max 1 (min 10 level) = 10
    omega
  · show max 1 (min 10 level) = level
    omega
  · unfold getSimilarCharsMap DeafSimulator.create
    simp [h1, h2]

/-- Witness for C4's amended statement at levels -3 and 15, language "xx". -/
theorem create_clamps_level_witness :
    (DeafSimulator.create (-3) "xx").level = 1 ∧
    (DeafSimulator.create 15 "xx").level = 10 ∧
    (DeafSimulator.create 7 "xx").level = 7 ∧
    getSimilarCharsMap (DeafSimulator.create 15 "xx") = agnosticMap :=
  ⟨(create_clamps_level (-3) "xx").1.1 (by decide),
   (create_clamps_level 15 "xx").1.2.1 (by decide),
   (create_clamps_level 7 "xx").1.2.2 (by decide) (by decide),
   (create_clamps_level 15 "xx").2 (by decide) (by decide)⟩

/-! ## C5 -/

/-- C5: the base keep-rate table equals the spec table
{1:97, 2:92, 3:85, 4:78, 5:70, 6:60, 7:45, 8:30, 9:18, 10:8} on levels
1..10, and for every pair of levels L1 < L2 in [1,10] and every fixed token
the keep probability keepThreshold/100 at L1 is at least that at L2. -/
theorem keepRate_table_and_monotone :
    (∀ l : Int, 1 ≤ l → l ≤ 10 → recognitionRates l = specBaseKeepRate l) ∧
    (∀ l1 l2 : Int, 1 ≤ l1 → l1 < l2 → l2 ≤ 10 → ∀ w : List Char,
      keepThreshold l2 w / 100 ≤ keepThreshold l1 w / 100) := by
  refine ⟨recognitionRates_eq_spec, fun l1 l2 h1 h12 h2 w => ?_⟩
  have hmono : recognitionRates l2 ≤ recognitionRates l1 := by
    have h1b : 1 ≤ l2 := by omega
    have h2b : l1 ≤ 10 := by omega
    interval_cases l1 <;> interval_cases l2 <;> norm_num [recognitionRates]
  unfold keepThreshold
  have hd : (0:ℚ) < 100 := by norm_num
  exact (div_le_div_iff_of_pos_right hd).mpr
    (min_le_min (le_refl 98) (add_le_add_right hmono (importanceBonus w)))

/-- Witness for C5 at levels 3 < 7 and token "x". -/
theorem keepRate_table_and_monotone_witness :
    recognitionRates 3 = specBaseKeepRate 3 ∧
    keepThreshold 7 ("x".data) / 100 ≤ keepThreshold 3 ("x".data) / 100 :=
  ⟨keepRate_table_and_monotone.1 3 (by decide) (by decide),
   keepRate_table_and_monotone.2 3 7 (by decide) (by decide) (by decide) ("x".data)⟩

/-! ## C6 -/

/-- C6 counterexample: with active language "en" the token "cosa" is four
characters, lower-case, and no English interrogative, so the claim assigns
bonus 0; the source's single combined regex matches it and assigns 5. -/
theorem importanceBonus_language_cex :
    importanceBonus ("cosa".data) = 5 ∧
    importanceBonusSpec ("en") ("cosa".data) = 0 :=
  of_decide_eq_true (by with_unfolding_all rfl)

/-- C6 amended: the importance bonus ignores the configured language: it is
5 exactly when the token has length > 5, or starts with an uppercase
letter, or case-insensitively starts with a word drawn from the UNION of
the English and Italian interrogative sets (the set the claim assigns to
agnostic mode), and 0 otherwise - for every language mode. -/
theorem importanceBonus_uses_union (w : List Char) :
    importanceBonus w = importanceBonusSpec ("agnostic") w := by
  with_unfolding_all rfl


/-! ## C2 -/

/-- With roll 0 the empty token is always kept (its keep threshold is the
positive base rate). -/
theorem decideAction_zero_keep (sim : DeafSimulator) :
    decideAction sim 0 [] = Action.keep := by
  have hb : importanceBonus [] = 0 := by with_unfolding_all rfl
  have hpos : (0:ℚ) * 100 < keepThreshold sim.level [] := by
    rw [zero_mul]
    unfold keepThreshold
    rw [hb, add_zero]
    exact lt_min (by norm_num) (recognitionRates_pos sim.level)
  simp only [decideAction]
  rw [if_pos hpos]

theorem jsSplitWsGo_allWs : ∀ l : List Char, (∀ c ∈ l, isWs c = true) →
    jsSplitWsGo l [] true = [[]]
  | [], _ => rfl
  | c :: cs, h => by
    have hc : isWs c = true := h c (by simp)
    simp only [jsSplitWsGo, hc, if_true]
    exact jsSplitWsGo_allWs cs (fun x hx => h x (by simp [hx]))

/-- A non-empty all-whitespace string splits into exactly two empty
tokens (a leading and a trailing one). -/
theorem jsSplitWs_allWs (l : List Char) (hne : l ≠ [])
    (h : ∀ c ∈ l, isWs c = true) : jsSplitWs l = [[], []] := by
  cases l with
  | nil => exact absurd rfl hne
  | cons c cs =>
    have hc : isWs c = true := h c (by simp)
    unfold jsSplitWs
    simp only [jsSplitWsGo, hc, if_true, List.reverse_nil]
    rw [jsSplitWsGo_allWs cs (fun x hx => h x (by simp [hx]))]
    simp

/-- With the all-zero tape every token is kept, so the loop returns the
token list unchanged. -/
theorem simulateLoop_keep_empties (sim : DeafSimulator) :
    ∀ (ws : List (List Char)), (∀ w ∈ ws, w = []) → ∀ i : Nat,
    (simulateLoop sim (fun _ => 0) ws i).1 = ws
  | [], _, i => rfl
  | w :: ws, h, i => by
    have hw : w = [] := h w (by simp)
    subst hw
    simp only [simulateLoop, decideAction_zero_keep]
    exact congrArg (List.cons []) (simulateLoop_keep_empties sim ws
      (fun x hx => h x (by simp [hx])) (i + 1))

/-- C2 counterexample: on the whitespace-only input " " with rolls that
keep every token, simulate returns {original: " ", degraded: "",
lossPercentage: 50}, not {original: "", degraded: "", lossPercentage: 0}:
the input splits into TWO empty tokens (not zero), and the empty degraded
string still splits into one token, so the loss is round((1 - 1/2)·100). -/
theorem simulate_whitespace_only_cex :
    simulate (DeafSimulator.create 5 "en") (fun _ => 0) " " =
      { original := " ", degraded := "", lossPercentage := 50 } := by
  with_unfolding_all rfl

/-- C2 amended: the empty input splits into one empty token and
whitespace-only inputs into two (never zero).  When every such token is
kept (rolls of 0), the result for the empty input is exactly
{original: "", degraded: "", lossPercentage: 0} as claimed, but a
whitespace-only input returns its own text as `original` and loss 50. -/
theorem simulate_whitespace_only (sim : DeafSimulator) (s : String)
    (hws : ∀ c ∈ s.data, isWs c = true) :
    simulate sim (fun _ => 0) s =
      { original := s, degraded := "",
        lossPercentage := if s.data.isEmpty then 0 else 50 } := by
  unfold simulate
  rcases hd : s.data with _ | ⟨c, cs⟩
  · rw [show jsSplitWs ([] : List Char) = [[]] from rfl,
      simulateLoop_keep_empties sim [[]] (by simp) 0]
    with_unfolding_all rfl
  · have hsplit : jsSplitWs (c :: cs) = [[], []] :=
      jsSplitWs_allWs (c :: cs) (by simp)
        (fun x hx => hws x (by rw [hd]; exact hx))
    rw [hsplit, simulateLoop_keep_empties sim [[], []] (by simp) 0]
    with_unfolding_all rfl

/-- Witness for C2's amended statement at the one-space input. -/
theorem simulate_whitespace_only_witness :
    simulate (DeafSimulator.create 5 "en") (fun _ => 0) " " =
      { original := " ", degraded := "", lossPercentage := 50 } := by
  rw [simulate_whitespace_only (DeafSimulator.create 5 "en") " " (by decide)]
  with_unfolding_all rfl

/-! ## C3 -/

/-- C3 (code bug): level 10, agnostic, input "Hello world", random source
forcing a drop of both tokens and no placeholder: the degraded output is
"" as the claim states, but the loss percentage is 50, not the claimed
100 - splitting the empty degraded string on whitespace yields one empty
token which the loss formula counts as a kept token. -/
theorem simulate_hello_world_all_drop :
    simulate (DeafSimulator.create 10 "agnostic")
      (fun n => if n % 2 = 0 then 99/100 else 1/2) "Hello world" =
      { original := "Hello world", degraded := "", lossPercentage := 50 } := by
  with_unfolding_all rfl

/-! ## C8 -/

/-- C8 counterexample: the empty token has length ≤ 3 but does not degrade
to its "first character plus the ellipsis marker" (which could only be the
bare marker): the source evaluates `word[0] + \'...\'` where `word[0]` is
`undefined`, producing the literal text "undefined...". -/
theorem partialWord_empty_token_cex :
    (partialWord (DeafSimulator.create 5 "en") (fun _ => 0) 0 []).1 ≠
      List.take 1 [] ++ ellipsisMark ∧
    (partialWord (DeafSimulator.create 5 "en") (fun _ => 0) 0 []).1 =
      undefinedLit ++ ellipsisMark :=
  of_decide_eq_true (by with_unfolding_all rfl)

/-- C8 amended: for tokens of length > 3 the truncation keeps
keepLength = max(1, floor(length·(1 − level/15))) characters - the first
keepLength followed by the marker when the draw is < 0.6, else the marker
followed by the last keepLength - and 1 ≤ keepLength < length, so the
output always has the marker and at least one retained character; tokens
of length, 1 to 3, degrade to their first character plus the marker; the
EMPTY token instead degrades to the literal text "undefined...". -/
theorem partialWord_spec (sim : DeafSimulator) (tape : Tape) (i : Nat)
    (w : List Char) (h1 : 1 ≤ sim.level) (_h2 : sim.level ≤ 10) :
    (3 < w.length →
      (1 : Int) ≤ max 1 ⌊(w.length : ℚ) * (1 - (sim.level : ℚ) / 15)⌋ ∧
      (max 1 ⌊(w.length : ℚ) * (1 - (sim.level : ℚ) / 15)⌋).toNat < w.length ∧
      partialWord sim tape i w =
        (if tape i < 6/10 then
          (w.take (max 1 ⌊(w.length : ℚ) * (1 - (sim.level : ℚ) / 15)⌋).toNat ++
            ellipsisMark, i + 1)
        else
          (ellipsisMark ++ w.drop (w.length -
            (max 1 ⌊(w.length : ℚ) * (1 - (sim.level : ℚ) / 15)⌋).toNat),
           i + 1))) ∧
    (0 < w.length → w.length ≤ 3 →
      partialWord sim tape i w = (w.take 1 ++ ellipsisMark, i)) ∧
    (w.length = 0 → partialWord sim tape i w = (undefinedLit ++ ellipsisMark, i)) := by
  refine ⟨fun hlen => ?_, fun hpos hle => ?_, fun hzero => ?_⟩
  · have hfl : ⌊(w.length : ℚ) * (1 - (sim.level : ℚ) / 15)⌋ < (w.length : Int) := by
      apply Int.floor_lt.mpr
      push_cast
      have hl0 : (0:ℚ) < (w.length : ℚ) := by
        have : 0 < w.length := by omega
        exact_mod_cast this
      have hv0 : (0:ℚ) < (sim.level : ℚ) / 15 := by
        have : (1:ℚ) ≤ (sim.level : ℚ) := by exact_mod_cast h1
        positivity
      nlinarith [mul_pos hl0 hv0]
    have hmax : max 1 ⌊(w.length : ℚ) * (1 - (sim.level : ℚ) / 15)⌋ < (w.length : Int) := by
      have : (1 : Int) < (w.length : Int) := by exact_mod_cast (by omega : 1 < w.length)
      omega
    refine ⟨le_max_left 1 _, by omega, ?_⟩
    unfold partialWord
    rw [if_neg (by omega : ¬ w.length ≤ 3)]
    simp only [jsFloor_eq_floor]
  · unfold partialWord
    rw [if_pos hle, if_neg (by omega : ¬ w.length = 0)]
  · unfold partialWord
    rw [if_pos (by omega : w.length ≤ 3), if_pos hzero]

/-- Witness for C8's amended statement: level 9, word "hello", draw 0 keeps
the first max(1, floor(5·(1 − 9/15))) = 2 characters. -/
theorem partialWord_spec_witness :
    partialWord (DeafSimulator.create 9 "it") (fun _ => 0) 0 ("hello".data) =
      ("he...".data, 1) := by
  rw [((partialWord_spec (DeafSimulator.create 9 "it") (fun _ => 0) 0
    ("hello".data) (by decide) (by decide)).1 (by decide)).2.2]
  with_unfolding_all rfl

/-! ## C9 -/

/-- C9: in Italian mode the confusion lookup can consult the Italian
entries keyed by two-character clusters: there is an explicit random
sequence under which garbling "pallone" (a token containing the doubled
consonant "ll") performs a substitution recorded as key "ll" replaced by
"rr", where "rr" is drawn from the Italian table entry for the cluster
"ll" and the agnostic table has no entry for "ll" at all (a single
character entry is all it could offer). -/
theorem garble_italian_cluster_consulted :
    (("ll".data, "rr".data) ∈ (garbleRun (DeafSimulator.create 10 "it")
        (fun n => [3/10, 0, 0, 3/10, 0, 1/2, 3/10, 0, 1/2, 3/10, 0, 1/2].getD n 0)
        0 ("pallone".data)).trace) ∧
    hasDoubled 'l' ("pallone".data) = true ∧
    lookupMap italianMap ("ll".data) = some ["l".data, "rr".data] ∧
    lookupMap agnosticMap ("ll".data) = none ∧
    garbleWord (DeafSimulator.create 10 "it")
      (fun n => [3/10, 0, 0, 3/10, 0, 1/2, 3/10, 0, 1/2, 3/10, 0, 1/2].getD n 0)
      0 ("pallone".data) = ("parrlone".data, 12) :=
  of_decide_eq_true (by with_unfolding_all rfl)

/-! ## C10 -/

theorem jsSplitWsGo_ne_nil : ∀ (l acc : List Char) (b : Bool),
    jsSplitWsGo l acc b ≠ []
  | [], acc, b => by
    unfold jsSplitWsGo
    split <;> simp
  | c :: cs, acc, b => by
    unfold jsSplitWsGo
    split
    · split
      · exact jsSplitWsGo_ne_nil cs [] true
      · simp
    · exact jsSplitWsGo_ne_nil cs (c :: acc) false

/-- Splitting any string on whitespace yields at least one token. -/
theorem jsSplitWs_ne_nil (l : List Char) : jsSplitWs l ≠ [] :=
  jsSplitWsGo_ne_nil l [] false

/-- C10 counterexample: 200 input tokens, 199 dropped (level 6 < 7, so no
placeholder is ever drawn), one kept: the degraded output "a" contains no
placeholder, yet the loss is round((1 − 1/200)·100) = round(99.5) = 100,
refuting the strict bound. -/
theorem loss_hundred_no_placeholder_cex :
    (simulate (DeafSimulator.create 6 "agnostic")
      (fun n => if n = 0 then 0 else 99/100)
      (String.intercalate (" ") (List.replicate 200 "a"))).degraded = "a" ∧
    (simulate (DeafSimulator.create 6 "agnostic")
      (fun n => if n = 0 then 0 else 99/100)
      (String.intercalate (" ") (List.replicate 200 "a"))).lossPercentage = 100 :=
  of_decide_eq_true (by with_unfolding_all rfl)

/-- C10 amended: for every input splitting into at most 199 tokens whose
degraded output contains no placeholder token, the reported loss is
strictly below 100: the degraded string always splits into at least one
(possibly empty) token counted as kept.  (With 200 or more input tokens
the claim fails: rounding can lift the loss to 100 with no placeholder in
the output - see the counterexample.) -/
theorem loss_lt_hundred_no_placeholder (sim : DeafSimulator) (tape : Tape)
    (input : String) (hn : (jsSplitWs input.data).length ≤ 199)
    (hnp : ∀ t ∈ jsSplitWs (simulate sim tape input).degraded.data,
      t ≠ placeholderTok) :
    (simulate sim tape input).lossPercentage < 100 := by
  have hsim : simulate sim tape input =
      assembleResult input (jsSplitWs input.data).length
        (simulateLoop sim tape (jsSplitWs input.data) 0).1 := rfl
  rw [hsim] at hnp ⊢
  set n := (jsSplitWs input.data).length with hn_def
  set dws := (simulateLoop sim tape (jsSplitWs input.data) 0).1 with hdws_def
  set d := jsTrim (jsCollapseWs (List.intercalate [' '] dws)) with hd_def
  have hdeg : (assembleResult input n dws).degraded.data = d := rfl
  rw [hdeg] at hnp
  have hloss : (assembleResult input n dws).lossPercentage =
      max 0 (if 0 < n then
        jsRound ((1 - (((jsSplitWs d).filter
          (fun w => w != placeholderTok)).length : ℚ) / (n : ℚ)) * 100)
      else 0) := rfl
  rw [hloss]
  have hfil : (jsSplitWs d).filter (fun w => w != placeholderTok) = jsSplitWs d := by
    apply List.filter_eq_self.mpr
    intro a ha
    simpa using hnp a ha
  rw [hfil]
  have hk : 1 ≤ (jsSplitWs d).length :=
    List.length_pos.mpr (jsSplitWs_ne_nil d)
  have hn1 : 0 < n := List.length_pos.mpr (jsSplitWs_ne_nil input.data)
  rw [if_pos hn1]
  apply max_lt (by norm_num)
  unfold jsRound
  rw [jsFloor_eq_floor]
  have : ((1 : ℚ) - ((jsSplitWs d).length : ℚ) / (n : ℚ)) * 100 + 1/2 < ((100 : Int) : ℚ) := by
    push_cast
    have hnq1 : (1:ℚ) ≤ (n:ℚ) := by exact_mod_cast hn1
    have hkq : (1:ℚ) ≤ ((jsSplitWs d).length : ℚ) := by exact_mod_cast hk
    have hnq2 : (n:ℚ) ≤ 199 := by exact_mod_cast hn
    have hn0 : (0:ℚ) < (n:ℚ) := by linarith
    have e1 : (1:ℚ)/(n:ℚ) ≤ ((jsSplitWs d).length : ℚ)/(n:ℚ) :=
      (div_le_div_iff_of_pos_right hn0).mpr hkq
    have e2 : (100:ℚ)/199 ≤ 100/(n:ℚ) := by gcongr
    have e3 : (100:ℚ)/(n:ℚ) = 100 * ((1:ℚ)/(n:ℚ)) := by ring
    have e4 : ((1:ℚ) - ((jsSplitWs d).length : ℚ)/(n:ℚ)) * 100 =
        100 - 100 * (((jsSplitWs d).length : ℚ)/(n:ℚ)) := by ring
    nlinarith [e1, e2]
  exact Int.floor_lt.mpr this

/-- Witness for C10's amended statement: the one-token input "a", kept
verbatim, has degraded output "a" with no placeholder and loss 0 < 100. -/
theorem loss_lt_hundred_no_placeholder_witness :
    (simulate (DeafSimulator.create 5 "en") (fun _ => 0) "a").lossPercentage < 100 :=
  loss_lt_hundred_no_placeholder (DeafSimulator.create 5 "en") (fun _ => 0) "a"
    (by decide) (of_decide_eq_true (by with_unfolding_all rfl))


/-! ## List helper lemmas for the garble-loop invariants -/

theorem joinedLen_cons (x : List Char) (xs : List (List Char)) :
    joinedLen (x :: xs) = x.length + joinedLen xs := by
  simp [joinedLen]

theorem joinedLen_set : ∀ (l : List (List Char)) (k : Nat) (b : List Char),
    k < l.length →
    joinedLen (l.set k b) + (l.getD k []).length = joinedLen l + b.length
  | [], k, b, hk => by simp at hk
  | x :: xs, 0, b, _ => by
    simp [List.set, joinedLen_cons, List.getD_cons_zero]
    omega
  | x :: xs, k + 1, b, hk => by
    simp only [List.set, joinedLen_cons, List.getD_cons_succ]
    have := joinedLen_set xs k b (by simpa using hk)
    omega

theorem joinedLen_eraseIdx_le : ∀ (l : List (List Char)) (k : Nat),
    joinedLen (l.eraseIdx k) ≤ joinedLen l
  | [], _ => le_refl _
  | x :: xs, 0 => by
    simp [List.eraseIdx, joinedLen_cons]
  | x :: xs, k + 1 => by
    simp only [List.eraseIdx, joinedLen_cons]
    have := joinedLen_eraseIdx_le xs k
    omega

theorem getD_set_ne : ∀ (l : List (List Char)) (m n : Nat) (a : List Char),
    m ≠ n → (l.set m a).getD n [] = l.getD n []
  | [], _, _, _, _ => by simp
  | x :: xs, 0, 0, a, h => absurd rfl h
  | x :: xs, 0, n + 1, a, _ => by simp [List.set]
  | x :: xs, m + 1, 0, a, _ => by simp [List.set]
  | x :: xs, m + 1, n + 1, a, h => by
    simp only [List.set, List.getD_cons_succ]
    exact getD_set_ne xs m n a (fun e => h (by omega))

theorem joinedLen_swap (l : List (List Char)) (p : Nat) (hp : p + 1 < l.length) :
    joinedLen ((l.set p (l.getD (p + 1) [])).set (p + 1) (l.getD p [])) =
      joinedLen l := by
  have h1 : p < l.length := by omega
  have e1 := joinedLen_set l p (l.getD (p + 1) []) h1
  have hlen : (l.set p (l.getD (p + 1) [])).length = l.length := by simp
  have e2 := joinedLen_set (l.set p (l.getD (p + 1) [])) (p + 1) (l.getD p [])
    (by omega)
  have e3 : (l.set p (l.getD (p + 1) [])).getD (p + 1) [] = l.getD (p + 1) [] :=
    getD_set_ne l p (p + 1) _ (by omega)
  rw [e3] at e2
  omega

theorem mem_of_mem_eraseIdx' : ∀ (l : List (List Char)) (k : Nat) (x : List Char),
    x ∈ l.eraseIdx k → x ∈ l
  | [], _, _, h => by simp [List.eraseIdx] at h
  | y :: ys, 0, x, h => by
    simp only [List.eraseIdx] at h
    exact List.mem_cons_of_mem y h
  | y :: ys, k + 1, x, h => by
    simp only [List.eraseIdx] at h
    rcases List.mem_cons.mp h with h1 | h2
    · exact h1 ▸ List.mem_cons_self y ys
    · exact List.mem_cons_of_mem y (mem_of_mem_eraseIdx' ys k x h2)

theorem length_eraseIdx_ge : ∀ (l : List (List Char)) (k : Nat),
    l.length - 1 ≤ (l.eraseIdx k).length
  | [], _ => by simp
  | x :: xs, 0 => by simp [List.eraseIdx]
  | x :: xs, k + 1 => by
    simp only [List.eraseIdx, List.length_cons]
    have := length_eraseIdx_ge xs k
    omega

theorem getD_mem_of_lt : ∀ (l : List (List Char)) (k : Nat), k < l.length →
    l.getD k [] ∈ l
  | [], _, h => by simp at h
  | x :: xs, 0, _ => by simp
  | x :: xs, k + 1, h => by
    simp only [List.getD_cons_succ]
    exact List.mem_cons_of_mem x (getD_mem_of_lt xs k (by simpa using h))

theorem getD_mem_of_ne_nil : ∀ (l : List (List Char)) (k : Nat),
    l.getD k [] ≠ [] → l.getD k [] ∈ l
  | [], k, h => by simp [List.getD] at h
  | x :: xs, 0, _ => by simp
  | x :: xs, k + 1, h => by
    simp only [List.getD_cons_succ] at *
    exact List.mem_cons_of_mem x (getD_mem_of_ne_nil xs k h)

theorem flatten_ne_nil : ∀ (l : List (List Char)), l ≠ [] →
    (∀ s ∈ l, s ≠ []) → l.flatten ≠ []
  | [], h, _ => absurd rfl h
  | x :: xs, _, h2 => by
    have hx : x ≠ [] := h2 x (by simp)
    simp only [List.flatten_cons]
    intro hc
    exact hx (List.append_eq_nil.mp hc).1

theorem joinedLen_singletons : ∀ w : List Char,
    joinedLen (w.map (fun c => [c])) = w.length
  | [] => rfl
  | c :: cs => by
    simp only [List.map_cons, joinedLen_cons, joinedLen_singletons cs,
      List.length_cons, List.length_nil]
    omega

theorem lookupMap_mem : ∀ (m : List (List Char × List (List Char)))
    (k : List Char) (v : List (List Char)),
    lookupMap m k = some v → (k, v) ∈ m
  | [], _, _, h => by simp [lookupMap] at h
  | (k1, v1) :: rest, k, v, h => by
    unfold lookupMap at h
    split at h
    · next he =>
      cases h
      exact he ▸ List.mem_cons_self _ _
    · exact List.mem_cons_of_mem _ (lookupMap_mem rest k v h)

/-- Every replacement string in each of the three confusion tables is at
most one character longer than its key. -/
theorem confusion_entries_short :
    (∀ p ∈ agnosticMap, ∀ r ∈ p.2, r.length ≤ p.1.length + 1) ∧
    (∀ p ∈ englishMap, ∀ r ∈ p.2, r.length ≤ p.1.length + 1) ∧
    (∀ p ∈ italianMap, ∀ r ∈ p.2, r.length ≤ p.1.length + 1) := by
  decide

theorem getSimilarCharsMap_cases (sim : DeafSimulator) :
    getSimilarCharsMap sim = englishMap ∨ getSimilarCharsMap sim = italianMap ∨
      getSimilarCharsMap sim = agnosticMap := by
  unfold getSimilarCharsMap
  split
  · exact Or.inl rfl
  · split
    · exact Or.inr (Or.inl rfl)
    · exact Or.inr (Or.inr rfl)

theorem getSimilarCharsMap_short (sim : DeafSimulator) :
    ∀ p ∈ getSimilarCharsMap sim, ∀ r ∈ p.2, r.length ≤ p.1.length + 1 := by
  rcases getSimilarCharsMap_cases sim with h | h | h <;> rw [h]
  exacts [confusion_entries_short.2.1, confusion_entries_short.2.2,
    confusion_entries_short.1]


theorem getSimilarCharR_ne_nil (sim : DeafSimulator) (tape : Tape) (i : Nat)
    (ch : List Char) (h : ch ≠ []) :
    (getSimilarCharR sim tape i ch).result ≠ [] := by
  simp only [getSimilarCharR]
  split
  · exact h
  · split
    · exact h
    · split
      · rw [if_pos rfl]
        exact h
      · split
        · exact h
        · next hg =>
          split
          · simpa using hg
          · exact hg

theorem getSimilarCharR_len (sim : DeafSimulator) (tape : Tape) (i : Nat)
    (ch : List Char) :
    (getSimilarCharR sim tape i ch).result.length ≤ ch.length + 1 := by
  simp only [getSimilarCharR]
  split
  · dsimp only
    omega
  · next repls heq =>
    split
    · dsimp only
      omega
    · split
      · rw [if_pos rfl]
        dsimp only
        omega
      · split
        · dsimp only
          omega
        · next hg =>
          have hmem : repls.getD (jsFloor (tape i * (repls.length : ℚ))).toNat [] ∈ repls :=
            getD_mem_of_ne_nil repls _ hg
          have hb := getSimilarCharsMap_short sim _ (lookupMap_mem _ _ _ heq) _ hmem
          rw [List.length_map] at hb
          split
          · dsimp only
            rw [List.length_map]
            omega
          · dsimp only
            omega


theorem garbleLoop_nonempty (sim : DeafSimulator) (tape : Tape) :
    ∀ (fuel : Nat) (chars : List (List Char)) (i : Nat),
    (∀ s ∈ chars, s ≠ []) →
    ∀ s ∈ (garbleLoop sim tape fuel chars i).chars, s ≠ []
  | 0, chars, i, h => h
  | n + 1, chars, i, h => by
    simp only [garbleLoop]
    split
    · exact h
    · split
      · next hrange =>
        split
        · -- replace
          dsimp only
          apply garbleLoop_nonempty sim tape n
          intro s hs
          rcases List.mem_or_eq_of_mem_set hs with h1 | h1
          · exact h s h1
          · subst h1
            exact getSimilarCharR_ne_nil sim tape (i + 2) _
              (h _ (getD_mem_of_lt chars _ hrange.2))
        · split
          · -- swap
            dsimp only
            apply garbleLoop_nonempty sim tape n
            split
            · intro s hs
              rcases List.mem_or_eq_of_mem_set hs with h1 | h1
              · rcases List.mem_or_eq_of_mem_set h1 with h2 | h2
                · exact h s h2
                · subst h2
                  next hlt =>
                  exact h _ (getD_mem_of_lt chars _ hlt)
              · subst h1
                exact h _ (getD_mem_of_lt chars _ hrange.2)
            · exact h
          · -- erase
            dsimp only
            apply garbleLoop_nonempty sim tape n
            intro s hs
            exact h s (mem_of_mem_eraseIdx' chars _ s hs)
      · -- continue
        dsimp only
        exact garbleLoop_nonempty sim tape n chars (i + 2) h

theorem garbleLoop_length (sim : DeafSimulator) (tape : Tape) :
    ∀ (fuel : Nat) (chars : List (List Char)) (i : Nat),
    chars.length ≤ (garbleLoop sim tape fuel chars i).chars.length + fuel
  | 0, chars, i => by
    simp only [garbleLoop]
    omega
  | n + 1, chars, i => by
    simp only [garbleLoop]
    split
    · dsimp only
      omega
    · split
      · split
        · -- replace
          dsimp only
          have hr := garbleLoop_length sim tape n
            (chars.set (jsFloor (tape i * (chars.length : ℚ))).toNat
              (getSimilarCharR sim tape (i + 2)
                (chars.getD (jsFloor (tape i * (chars.length : ℚ))).toNat [])).result)
            (getSimilarCharR sim tape (i + 2)
              (chars.getD (jsFloor (tape i * (chars.length : ℚ))).toNat [])).idx
          rw [List.length_set] at hr
          omega
        · split
          · -- swap
            dsimp only
            split
            · have hr := garbleLoop_length sim tape n
                ((chars.set (jsFloor (tape i * (chars.length : ℚ))).toNat
                    (chars.getD ((jsFloor (tape i * (chars.length : ℚ))).toNat + 1) [])).set
                  ((jsFloor (tape i * (chars.length : ℚ))).toNat + 1)
                  (chars.getD (jsFloor (tape i * (chars.length : ℚ))).toNat [])) (i + 2)
              simp only [List.length_set] at hr
              omega
            · have hr := garbleLoop_length sim tape n chars (i + 2)
              omega
          · -- erase
            dsimp only
            have hr := garbleLoop_length sim tape n
              (chars.eraseIdx (jsFloor (tape i * (chars.length : ℚ))).toNat) (i + 2)
            have h2 := length_eraseIdx_ge chars (jsFloor (tape i * (chars.length : ℚ))).toNat
            omega
      · -- continue
        dsimp only
        have hr := garbleLoop_length sim tape n chars (i + 2)
        omega

theorem garbleLoop_joined (sim : DeafSimulator) (tape : Tape) :
    ∀ (fuel : Nat) (chars : List (List Char)) (i : Nat),
    joinedLen (garbleLoop sim tape fuel chars i).chars ≤ joinedLen chars + fuel
  | 0, chars, i => by
    simp only [garbleLoop]
    omega
  | n + 1, chars, i => by
    simp only [garbleLoop]
    split
    · dsimp only
      omega
    · split
      · next hrange =>
        split
        · -- replace
          dsimp only
          have hr := garbleLoop_joined sim tape n
            (chars.set (jsFloor (tape i * (chars.length : ℚ))).toNat
              (getSimilarCharR sim tape (i + 2)
                (chars.getD (jsFloor (tape i * (chars.length : ℚ))).toNat [])).result)
            (getSimilarCharR sim tape (i + 2)
              (chars.getD (jsFloor (tape i * (chars.length : ℚ))).toNat [])).idx
          have he := joinedLen_set chars (jsFloor (tape i * (chars.length : ℚ))).toNat
            (getSimilarCharR sim tape (i + 2)
              (chars.getD (jsFloor (tape i * (chars.length : ℚ))).toNat [])).result
            hrange.2
          have hl := getSimilarCharR_len sim tape (i + 2)
            (chars.getD (jsFloor (tape i * (chars.length : ℚ))).toNat [])
          omega
        · split
          · -- swap
            dsimp only
            split
            · next hlt =>
              have hr := garbleLoop_joined sim tape n
                ((chars.set (jsFloor (tape i * (chars.length : ℚ))).toNat
                    (chars.getD ((jsFloor (tape i * (chars.length : ℚ))).toNat + 1) [])).set
                  ((jsFloor (tape i * (chars.length : ℚ))).toNat + 1)
                  (chars.getD (jsFloor (tape i * (chars.length : ℚ))).toNat [])) (i + 2)
              have he := joinedLen_swap chars (jsFloor (tape i * (chars.length : ℚ))).toNat hlt
              omega
            · have hr := garbleLoop_joined sim tape n chars (i + 2)
              omega
          · -- erase
            dsimp only
            have hr := garbleLoop_joined sim tape n
              (chars.eraseIdx (jsFloor (tape i * (chars.length : ℚ))).toNat) (i + 2)
            have h2 := joinedLen_eraseIdx_le chars (jsFloor (tape i * (chars.length : ℚ))).toNat
            omega
      · -- continue
        dsimp only
        have hr := garbleLoop_joined sim tape n chars (i + 2)
        omega

theorem garbleLoop_edits (sim : DeafSimulator) (tape : Tape) (ht : ValidTape tape) :
    ∀ (fuel : Nat) (chars : List (List Char)) (i : Nat),
    fuel ≤ chars.length → (garbleLoop sim tape fuel chars i).edits = fuel
  | 0, chars, i, _ => rfl
  | n + 1, chars, i, hfc => by
    simp only [garbleLoop]
    rw [if_neg (by omega : ¬ chars.length = 0)]
    have hlen0 : (0:ℚ) < (chars.length : ℚ) := by
      have h0 : 0 < chars.length := by omega
      exact_mod_cast h0
    obtain ⟨ht0, ht1⟩ := ht i
    have hpos0 : 0 ≤ jsFloor (tape i * (chars.length : ℚ)) := by
      rw [jsFloor_eq_floor]
      exact Int.floor_nonneg.mpr (mul_nonneg ht0 (le_of_lt hlen0))
    have hposlt : (jsFloor (tape i * (chars.length : ℚ))).toNat < chars.length := by
      have hlt : jsFloor (tape i * (chars.length : ℚ)) < (chars.length : Int) := by
        rw [jsFloor_eq_floor]
        apply Int.floor_lt.mpr
        push_cast
        nlinarith [mul_lt_mul_of_pos_right ht1 hlen0]
      omega
    rw [if_pos ⟨hpos0, hposlt⟩]
    split
    · -- replace
      dsimp only
      rw [garbleLoop_edits sim tape ht n _ _ (by rw [List.length_set]; omega)]
    · split
      · -- swap
        dsimp only
        split
        · rw [garbleLoop_edits sim tape ht n _ _ (by simp only [List.length_set]; omega)]
        · rw [garbleLoop_edits sim tape ht n _ _ (by omega)]
      · -- erase
        dsimp only
        rw [garbleLoop_edits sim tape ht n _ _ (by
          have h2 := length_eraseIdx_ge chars (jsFloor (tape i * (chars.length : ℚ))).toNat
          omega)]


theorem numChanges_lt (len : Nat) (level : Int) (h3 : 3 ≤ len) (_h1 : 1 ≤ level)
    (h2 : level ≤ 10) : numChanges level len < len := by
  unfold numChanges
  rw [jsCeil_eq_ceil]
  have hc : ⌈(len : ℚ) * ((level : ℚ) / 20)⌉ ≤ (len : Int) - 1 := by
    apply Int.ceil_le.mpr
    push_cast
    have hl : (level : ℚ) ≤ 10 := by exact_mod_cast h2
    have hlen : (3:ℚ) ≤ (len : ℚ) := by exact_mod_cast h3
    have h0 : (0:ℚ) ≤ (len : ℚ) := by linarith
    nlinarith [mul_le_mul_of_nonneg_left hl h0]
  omega

/-- C7: garbling returns tokens of length ≤ 2 unchanged; for a token of
length > 2 and a level in [1,10] it performs exactly
ceil(length · level / 20) edits, the output is at most that many
characters longer than the input, and the output of a non-empty token is
never empty. -/
theorem garbleWord_spec (sim : DeafSimulator) (tape : Tape) (i : Nat)
    (w : List Char) (ht : ValidTape tape) (h1 : 1 ≤ sim.level)
    (h2 : sim.level ≤ 10) :
    (w.length ≤ 2 → garbleWord sim tape i w = (w, i)) ∧
    (2 < w.length →
      (garbleRun sim tape i w).edits =
        (⌈(w.length : ℚ) * ((sim.level : ℚ) / 20)⌉).toNat ∧
      (garbleWord sim tape i w).1.length ≤
        w.length + numChanges sim.level w.length ∧
      (garbleWord sim tape i w).1 ≠ []) := by
  constructor
  · intro h
    unfold garbleWord
    rw [if_pos h]
  · intro h
    have hnum : numChanges sim.level w.length < w.length :=
      numChanges_lt w.length sim.level (by omega) h1 h2
    have hslots : ∀ s ∈ w.map (fun c => [c]), s ≠ [] := by
      intro s hs
      rcases List.mem_map.mp hs with ⟨c, _, rfl⟩
      simp
    refine ⟨?_, ?_, ?_⟩
    · unfold garbleRun
      rw [garbleLoop_edits sim tape ht (numChanges sim.level w.length)
        (w.map (fun c => [c])) i (by simp only [List.length_map]; omega)]
      unfold numChanges
      rw [jsCeil_eq_ceil]
    · unfold garbleWord
      rw [if_neg (by omega)]
      have hj := garbleLoop_joined sim tape (numChanges sim.level w.length)
        (w.map (fun c => [c])) i
      rw [joinedLen_singletons] at hj
      calc (garbleRun sim tape i w).chars.flatten.length
          = joinedLen (garbleRun sim tape i w).chars := by
            simp [joinedLen, List.length_flatten]
        _ ≤ w.length + numChanges sim.level w.length := hj
    · unfold garbleWord
      rw [if_neg (by omega)]
      have hlen := garbleLoop_length sim tape (numChanges sim.level w.length)
        (w.map (fun c => [c])) i
      rw [List.length_map] at hlen
      have hne : (garbleRun sim tape i w).chars ≠ [] := by
        intro hc
        unfold garbleRun at hc
        rw [hc] at hlen
        simp only [List.length_nil] at hlen
        omega
      exact flatten_ne_nil _ hne
        (garbleLoop_nonempty sim tape (numChanges sim.level w.length)
          (w.map (fun c => [c])) i hslots)

/-- Witness for C7 at level 5, word "hello", constant tape 1/2: exactly
ceil(5 · 5/20) = 2 edits are performed (two neighbour swaps at position 2,
leaving the word unchanged). -/
theorem garbleWord_spec_witness :
    (garbleRun (DeafSimulator.create 5 "en") (fun _ => 1/2) 0
      ("hello".data)).edits = 2 := by
  have h := ((garbleWord_spec (DeafSimulator.create 5 "en") (fun _ => 1/2) 0
    ("hello".data) (fun n => ⟨by norm_num, by norm_num⟩) (by decide)
    (by decide)).2 (by decide)).1
  rw [h]
  with_unfolding_all rfl

end DeafAI
